import Mathlib

/-!
Verification of the document-to-knowledge-graph pipeline core of the
Deep Policy Analysis repository: the entity resolver (signal
amplification merge), the retry policy, the retrieval aggregator, the
chunker, the Gemini analysis service normalization, and the citation
renderer of the analysis summary component.

Python- and TypeScript-level machine integers and lists are modelled
as Nat and List; dictionaries that preserve insertion order (Python
dict / Counter) are modelled as association lists in insertion order.
-/

namespace Spec2Proof

/-! ## Entity resolver: data model (spec section 3, ExtractedEntity) -/

/-- APOR entity ontology tag. -/
inductive APORType
  | actor
  | policy
  | outcome
  | risk
deriving DecidableEq, Repr

/-- One provenance record: a chunk id, a quoted span and a per-quote
confidence. -/
structure ProvenanceEntry where
  chunkId : Nat
  quote : String
  quoteConfidence : Nat
deriving DecidableEq, Repr

/-- A raw extracted entity as consumed by the resolver. -/
structure ExtractedEntity where
  type : APORType
  label : String
  confidence : Nat
  provenance : List ProvenanceEntry
deriving DecidableEq, Repr

/-- One extraction result, holding the entities extracted from one
chunk or pass (the elements of the list passed to amplify_signals). -/
structure ExtractionResult where
  entities : List ExtractedEntity
deriving DecidableEq, Repr

section AssocList

variable {K : Type} [DecidableEq K] {β : Type}

/-- Ordered association-list lookup, modelling Python dict access. -/
def lookupA (k : K) : List (K × β) → Option β
  | [] => none
  | (k₂, b) :: rest => if k = k₂ then some b else lookupA k rest

/-- Counter increment: entity_counts[key] += 1. A missing key is
created with count 1 at the end (dict insertion order). -/
def bumpCount (k : K) : List (K × Nat) → List (K × Nat)
  | [] => [(k, 1)]
  | (k₂, c) :: rest =>
    if k = k₂ then (k₂, c + 1) :: rest else (k₂, c) :: bumpCount k rest

/-- The dict body of the amplify_signals collection loop: if the key is
absent the entity is inserted; otherwise the stored entity has the new
entity's provenance appended (entity_data[key].provenance.extend). -/
def mergeData (k : K) (e : ExtractedEntity) :
    List (K × ExtractedEntity) → List (K × ExtractedEntity)
  | [] => [(k, e)]
  | (k₂, d) :: rest =>
    if k = k₂ then
      (k₂, { d with provenance := d.provenance ++ e.provenance }) :: rest
    else
      (k₂, d) :: mergeData k e rest

/-- Update one value in place, leaving other entries untouched. -/
def updateData (k : K) (f : ExtractedEntity → ExtractedEntity) :
    List (K × ExtractedEntity) → List (K × ExtractedEntity)
  | [] => []
  | (k₂, d) :: rest =>
    if k = k₂ then (k₂, f d) :: rest else (k₂, d) :: updateData k f rest

end AssocList

section Resolver

variable {K : Type} [DecidableEq K]

/-- State of the first loop of amplify_signals: the Counter
entity_counts and the dict entity_data, both in insertion order. -/
def collectStep (norm : String → K)
    (st : List (K × Nat) × List (K × ExtractedEntity)) (e : ExtractedEntity) :
    List (K × Nat) × List (K × ExtractedEntity) :=
  (bumpCount (norm e.label) st.1, mergeData (norm e.label) e st.2)

/-- The collection loop of amplify_signals over all extraction results
(for extraction in extractions: for entity in extraction.entities). -/
def collectEntities (norm : String → K) (extractions : List ExtractionResult) :
    List (K × Nat) × List (K × ExtractedEntity) :=
  extractions.foldl (fun st ex => ex.entities.foldl (collectStep norm) st) ([], [])

/-- The confidence boost of the second loop of amplify_signals: +15 for
count >= 3, +8 for count >= 2, capped at 100; counts below 2 are left
untouched. -/
def applyBoost (count : Nat) (e : ExtractedEntity) : ExtractedEntity :=
  if 3 ≤ count then { e with confidence := min 100 (e.confidence + 15) }
  else if 2 ≤ count then { e with confidence := min 100 (e.confidence + 8) }
  else e

/-- The second loop of amplify_signals: for each (key, count) pair of
the Counter, the stored entity's confidence is boosted in place. -/
def boostFold (counts : List (K × Nat)) (data : List (K × ExtractedEntity)) :
    List (K × ExtractedEntity) :=
  counts.foldl (fun data kc => updateData kc.1 (applyBoost kc.2) data) data

/-- The full amplify_signals method of AgentOrchestrator. The entity
key normalization (normalize_entity_key) is label-based per the spec's
grouping-key contract and is kept abstract as the parameter norm. -/
def amplify_signals (norm : String → K) (extractions : List ExtractionResult) :
    List ExtractedEntity :=
  let st := collectEntities norm extractions
  (boostFold st.1 st.2).map (fun kd => kd.2)

/-- All raw entities of the input in traversal order. -/
def flatEntities (extractions : List ExtractionResult) : List ExtractedEntity :=
  extractions.flatMap (fun ex => ex.entities)

/-- Number of raw entities of a group (occurrences of the key). -/
def groupCount (norm : String → K) (k : K) (l : List ExtractedEntity) : Nat :=
  (l.filter (fun e => norm e.label = k)).length

/-- Concatenation of the provenance lists of a group, in input order. -/
def groupProv (norm : String → K) (k : K) (l : List ExtractedEntity) :
    List ProvenanceEntry :=
  (l.filter (fun e => norm e.label = k)).flatMap (fun e => e.provenance)

/-- The first raw entity of a group in traversal order. -/
def groupFirst (norm : String → K) (k : K) (l : List ExtractedEntity) :
    Option ExtractedEntity :=
  (l.filter (fun e => norm e.label = k)).head?

/-- The confidence amplify_signals computes from a group count and a
base confidence. -/
def boostConf (count base : Nat) : Nat :=
  if 3 ≤ count then min 100 (base + 15)
  else if 2 ≤ count then min 100 (base + 8)
  else base

end Resolver

/-! ## Association list lemmas -/

section AssocLemmas

variable {K : Type} [DecidableEq K] {β : Type}

theorem lookupA_eq_none_iff (k : K) (xs : List (K × β)) :
    lookupA k xs = none ↔ k ∉ xs.map Prod.fst := by
  induction xs with
  | nil => simp [lookupA]
  | cons p rest ih =>
    obtain ⟨k₂, b⟩ := p
    by_cases h : k = k₂ <;> simp [lookupA, h, ih]

theorem lookupA_of_mem (k : K) (b : β) (xs : List (K × β))
    (hnd : (xs.map Prod.fst).Nodup) (hmem : (k, b) ∈ xs) :
    lookupA k xs = some b := by
  induction xs with
  | nil => simp at hmem
  | cons p rest ih =>
    obtain ⟨k₂, b₂⟩ := p
    simp only [List.map_cons, List.nodup_cons] at hnd
    rcases List.mem_cons.mp hmem with h | h
    · obtain ⟨rfl, rfl⟩ := Prod.mk.injEq .. ▸ h
      simp [lookupA]
    · have hk : k ≠ k₂ := by
        rintro rfl
        exact hnd.1 (List.mem_map.mpr ⟨(k, b), h, rfl⟩)
      simp [lookupA, hk, ih hnd.2 h]

theorem mem_of_lookupA (k : K) (b : β) (xs : List (K × β))
    (h : lookupA k xs = some b) : (k, b) ∈ xs := by
  induction xs with
  | nil => simp [lookupA] at h
  | cons p rest ih =>
    obtain ⟨k₂, b₂⟩ := p
    by_cases hk : k = k₂
    · subst hk
      simp [lookupA] at h
      simp [h]
    · simp [lookupA, hk] at h
      exact List.mem_cons_of_mem _ (ih h)

theorem lookupA_bumpCount (k k₂ : K) (cs : List (K × Nat)) :
    lookupA k (bumpCount k₂ cs) =
      if k = k₂ then some ((lookupA k cs).getD 0 + 1) else lookupA k cs := by
  induction cs with
  | nil =>
    by_cases h : k = k₂ <;> simp [bumpCount, lookupA, h]
  | cons p rest ih =>
    obtain ⟨k₃, c⟩ := p
    by_cases h₂ : k₂ = k₃
    · subst h₂
      by_cases h : k = k₂ <;> simp [bumpCount, lookupA, h]
    · by_cases h : k = k₃
      · subst h
        have hne : k ≠ k₂ := fun h => h₂ h.symm
        simp [bumpCount, lookupA, h₂, hne, Ne.symm h₂]
      · simp [bumpCount, lookupA, h₂, h, ih]

theorem lookupA_mergeData (k k₂ : K) (e : ExtractedEntity)
    (ds : List (K × ExtractedEntity)) :
    lookupA k (mergeData k₂ e ds) =
      if k = k₂ then
        match lookupA k ds with
        | none => some e
        | some d => some { d with provenance := d.provenance ++ e.provenance }
      else lookupA k ds := by
  induction ds with
  | nil =>
    by_cases h : k = k₂ <;> simp [mergeData, lookupA, h]
  | cons p rest ih =>
    obtain ⟨k₃, d⟩ := p
    by_cases h₂ : k₂ = k₃
    · subst h₂
      by_cases h : k = k₂ <;> simp [mergeData, lookupA, h]
    · by_cases h : k = k₃
      · subst h
        have hne : k ≠ k₂ := fun h => h₂ h.symm
        simp [mergeData, lookupA, h₂, hne, Ne.symm h₂]
      · simp [mergeData, lookupA, h₂, h, ih]

theorem lookupA_updateData (k k₂ : K) (f : ExtractedEntity → ExtractedEntity)
    (ds : List (K × ExtractedEntity)) :
    lookupA k (updateData k₂ f ds) =
      if k = k₂ then (lookupA k ds).map f else lookupA k ds := by
  induction ds with
  | nil =>
    by_cases h : k = k₂ <;> simp [updateData, lookupA, h]
  | cons p rest ih =>
    obtain ⟨k₃, d⟩ := p
    by_cases h₂ : k₂ = k₃
    · subst h₂
      by_cases h : k = k₂ <;> simp [updateData, lookupA, h]
    · by_cases h : k = k₃
      · subst h
        have hne : k ≠ k₂ := fun h => h₂ h.symm
        simp [updateData, lookupA, h₂, hne, Ne.symm h₂]
      · simp [updateData, lookupA, h₂, h, ih]

theorem keys_bumpCount (k : K) (cs : List (K × Nat)) :
    (bumpCount k cs).map Prod.fst =
      if lookupA k cs = none then cs.map Prod.fst ++ [k] else cs.map Prod.fst := by
  induction cs with
  | nil => simp [bumpCount, lookupA]
  | cons p rest ih =>
    obtain ⟨k₂, c⟩ := p
    by_cases h : k = k₂
    · subst h
      simp [bumpCount, lookupA]
    · simp [bumpCount, lookupA, h, ih]
      by_cases h₂ : lookupA k rest = none <;> simp [h₂]

theorem keys_mergeData (k : K) (e : ExtractedEntity)
    (ds : List (K × ExtractedEntity)) :
    (mergeData k e ds).map Prod.fst =
      if lookupA k ds = none then ds.map Prod.fst ++ [k] else ds.map Prod.fst := by
  induction ds with
  | nil => simp [mergeData, lookupA]
  | cons p rest ih =>
    obtain ⟨k₂, d⟩ := p
    by_cases h : k = k₂
    · subst h
      simp [mergeData, lookupA]
    · simp [mergeData, lookupA, h, ih]
      by_cases h₂ : lookupA k rest = none <;> simp [h₂]

theorem keys_updateData (k : K) (f : ExtractedEntity → ExtractedEntity)
    (ds : List (K × ExtractedEntity)) :
    (updateData k f ds).map Prod.fst = ds.map Prod.fst := by
  induction ds with
  | nil => simp [updateData]
  | cons p rest ih =>
    obtain ⟨k₂, d⟩ := p
    by_cases h : k = k₂ <;> simp [updateData, h, ih]

end AssocLemmas

/-! ## Characterization of the collection loop of amplify_signals -/

section CollectLemmas

variable {K : Type} [DecidableEq K] (norm : String → K)

theorem foldl_entities_eq_flat (extractions : List ExtractionResult)
    (st : List (K × Nat) × List (K × ExtractedEntity)) :
    extractions.foldl (fun st ex => ex.entities.foldl (collectStep norm) st) st =
      (flatEntities extractions).foldl (collectStep norm) st := by
  induction extractions generalizing st with
  | nil => simp [flatEntities]
  | cons ex rest ih =>
    simp only [List.foldl_cons, flatEntities, List.flatMap_cons, List.foldl_append]
    exact ih _

theorem collectEntities_eq_flat (extractions : List ExtractionResult) :
    collectEntities norm extractions =
      (flatEntities extractions).foldl (collectStep norm) ([], []) :=
  foldl_entities_eq_flat norm extractions ([], [])

theorem counts_foldl (l : List ExtractedEntity)
    (st : List (K × Nat) × List (K × ExtractedEntity)) (k : K) :
    lookupA k (l.foldl (collectStep norm) st).1 =
      if lookupA k st.1 = none ∧ groupCount norm k l = 0 then none
      else some ((lookupA k st.1).getD 0 + groupCount norm k l) := by
  induction l generalizing st with
  | nil =>
    simp only [List.foldl_nil, groupCount, List.filter_nil, List.length_nil]
    by_cases h : lookupA k st.1 = none
    · simp [h]
    · obtain ⟨c, hc⟩ := Option.ne_none_iff_exists.mp h
      simp [← hc]
  | cons e rest ih =>
    simp only [List.foldl_cons]
    rw [ih]
    by_cases hk : norm e.label = k
    · have h₁ : lookupA k (collectStep norm st e).1 =
          some ((lookupA k st.1).getD 0 + 1) := by
        simp [collectStep, lookupA_bumpCount, hk]
      have h₂ : groupCount norm k (e :: rest) = groupCount norm k rest + 1 := by
        simp [groupCount, List.filter_cons, hk]
      rw [h₁, h₂]
      simp only [Option.some_ne_none, false_and, if_false, Option.getD_some]
      rw [if_neg (fun h => Nat.succ_ne_zero _ h.2)]
      simp only [Option.some.injEq]
      omega
    · have hk₂ : k ≠ norm e.label := fun h => hk h.symm
      have h₁ : lookupA k (collectStep norm st e).1 = lookupA k st.1 := by
        simp [collectStep, lookupA_bumpCount, hk₂]
      have h₂ : groupCount norm k (e :: rest) = groupCount norm k rest := by
        simp [groupCount, List.filter_cons, hk]
      rw [h₁, h₂]

theorem data_foldl (l : List ExtractedEntity)
    (st : List (K × Nat) × List (K × ExtractedEntity)) (k : K) :
    lookupA k (l.foldl (collectStep norm) st).2 =
      match lookupA k st.2 with
      | some d => some { d with provenance := d.provenance ++ groupProv norm k l }
      | none =>
        (groupFirst norm k l).map
          (fun f => { f with provenance := groupProv norm k l }) := by
  induction l generalizing st with
  | nil =>
    simp only [List.foldl_nil, groupProv, groupFirst, List.filter_nil,
      List.flatMap_nil, List.head?_nil, Option.map_none]
    cases h : lookupA k st.2 <;> simp
  | cons e rest ih =>
    simp only [List.foldl_cons]
    rw [ih]
    by_cases hk : norm e.label = k
    · have h₁ : lookupA k (collectStep norm st e).2 =
          match lookupA k st.2 with
          | none => some e
          | some d => some { d with provenance := d.provenance ++ e.provenance } := by
        simp [collectStep, lookupA_mergeData, hk]
      have h₂ : groupProv norm k (e :: rest) =
          e.provenance ++ groupProv norm k rest := by
        simp [groupProv, List.filter_cons, hk]
      have h₃ : groupFirst norm k (e :: rest) = some e := by
        simp [groupFirst, List.filter_cons, hk]
      rw [h₁, h₂, h₃]
      cases h₄ : lookupA k st.2 with
      | none => simp
      | some d => simp [List.append_assoc]
    · have h₁ : lookupA k (collectStep norm st e).2 = lookupA k st.2 := by
        simp [collectStep, lookupA_mergeData]
        intro h; exact absurd h.symm hk
      have h₂ : groupProv norm k (e :: rest) = groupProv norm k rest := by
        simp [groupProv, List.filter_cons, hk]
      have h₃ : groupFirst norm k (e :: rest) = groupFirst norm k rest := by
        simp [groupFirst, List.filter_cons, hk]
      rw [h₁, h₂, h₃]

theorem collect_keys (l : List ExtractedEntity)
    (st : List (K × Nat) × List (K × ExtractedEntity))
    (hkeys : st.1.map Prod.fst = st.2.map Prod.fst)
    (hnd : (st.1.map Prod.fst).Nodup) :
    (l.foldl (collectStep norm) st).1.map Prod.fst =
        (l.foldl (collectStep norm) st).2.map Prod.fst ∧
      ((l.foldl (collectStep norm) st).1.map Prod.fst).Nodup := by
  induction l generalizing st with
  | nil => exact ⟨hkeys, hnd⟩
  | cons e rest ih =>
    simp only [List.foldl_cons]
    apply ih
    · simp only [collectStep, keys_bumpCount, keys_mergeData]
      have hmemiff : lookupA (norm e.label) st.1 = none ↔
          lookupA (norm e.label) st.2 = none := by
        rw [lookupA_eq_none_iff, lookupA_eq_none_iff, hkeys]
      by_cases h : lookupA (norm e.label) st.1 = none
      · simp [h, hmemiff.mp h, hkeys]
      · have h₂ : ¬lookupA (norm e.label) st.2 = none := fun hh => h (hmemiff.mpr hh)
        simp [h, h₂, hkeys]
    · simp only [collectStep, keys_bumpCount]
      by_cases h : lookupA (norm e.label) st.1 = none
      · simp only [h, if_true]
        exact List.Nodup.append hnd (List.nodup_singleton _)
          (by
            intro a ha hb
            simp only [List.mem_singleton] at hb
            subst hb
            exact (lookupA_eq_none_iff _ _).mp h ha)
      · simp [h, hnd]

end CollectLemmas

/-! ## Characterization of the boost loop and of amplify_signals -/

section BoostLemmas

variable {K : Type} [DecidableEq K] (norm : String → K)

theorem lookupA_boostFold (counts : List (K × Nat))
    (data : List (K × ExtractedEntity)) (k : K)
    (hnd : (counts.map Prod.fst).Nodup) :
    lookupA k (boostFold counts data) =
      match lookupA k counts with
      | none => lookupA k data
      | some c => (lookupA k data).map (applyBoost c) := by
  induction counts generalizing data with
  | nil => simp [boostFold, lookupA]
  | cons p rest ih =>
    obtain ⟨k₂, c⟩ := p
    simp only [List.map_cons, List.nodup_cons] at hnd
    have hstep : boostFold ((k₂, c) :: rest) data =
        boostFold rest (updateData k₂ (applyBoost c) data) := rfl
    rw [hstep, ih _ hnd.2]
    by_cases hk : k = k₂
    · subst hk
      have hrest : lookupA k rest = none := by
        rw [lookupA_eq_none_iff]
        exact fun hmem => hnd.1 (by simpa using hmem)
      rw [hrest, lookupA_updateData]
      simp [lookupA]
    · rw [lookupA_updateData]
      simp [lookupA, hk]

theorem keys_boostFold (counts : List (K × Nat))
    (data : List (K × ExtractedEntity)) :
    (boostFold counts data).map Prod.fst = data.map Prod.fst := by
  induction counts generalizing data with
  | nil => rfl
  | cons p rest ih =>
    have hstep : boostFold (p :: rest) data =
        boostFold rest (updateData p.1 (applyBoost p.2) data) := rfl
    rw [hstep, ih, keys_updateData]

theorem applyBoost_label (c : Nat) (e : ExtractedEntity) :
    (applyBoost c e).label = e.label := by
  unfold applyBoost
  split_ifs <;> rfl

theorem mergeData_label (k : K) (e : ExtractedEntity)
    (ds : List (K × ExtractedEntity))
    (hds : ∀ p ∈ ds, norm p.2.label = p.1) (hk : norm e.label = k) :
    ∀ p ∈ mergeData k e ds, norm p.2.label = p.1 := by
  induction ds with
  | nil =>
    intro p hp
    simp [mergeData] at hp
    subst hp
    exact hk
  | cons q rest ih =>
    intro p hp
    obtain ⟨k₂, d⟩ := q
    by_cases h : k = k₂
    · subst h
      simp only [mergeData, if_pos rfl] at hp
      rcases List.mem_cons.mp hp with rfl | hmem
      · exact hds (k, d) (List.mem_cons_self _ _)
      · exact hds p (List.mem_cons_of_mem _ hmem)
    · simp only [mergeData, if_neg h] at hp
      rcases List.mem_cons.mp hp with rfl | hmem
      · exact hds (k₂, d) (List.mem_cons_self _ _)
      · exact ih (fun q hq => hds q (List.mem_cons_of_mem _ hq)) p hmem

theorem collect_label_inv (l : List ExtractedEntity)
    (st : List (K × Nat) × List (K × ExtractedEntity))
    (hst : ∀ p ∈ st.2, norm p.2.label = p.1) :
    ∀ p ∈ (l.foldl (collectStep norm) st).2, norm p.2.label = p.1 := by
  induction l generalizing st with
  | nil => exact hst
  | cons e rest ih =>
    simp only [List.foldl_cons]
    exact ih _ (mergeData_label norm _ e st.2 hst rfl)

theorem updateData_label (k : K) (f : ExtractedEntity → ExtractedEntity)
    (ds : List (K × ExtractedEntity))
    (hds : ∀ p ∈ ds, norm p.2.label = p.1)
    (hf : ∀ d, (f d).label = d.label) :
    ∀ p ∈ updateData k f ds, norm p.2.label = p.1 := by
  induction ds with
  | nil => intro p hp; simp [updateData] at hp
  | cons q rest ih =>
    intro p hp
    obtain ⟨k₂, d⟩ := q
    by_cases h : k = k₂
    · subst h
      simp only [updateData, if_pos rfl] at hp
      rcases List.mem_cons.mp hp with rfl | hmem
      · show norm (f d).label = k
        rw [hf d]
        exact hds (k, d) (List.mem_cons_self _ _)
      · exact hds p (List.mem_cons_of_mem _ hmem)
    · simp only [updateData, if_neg h] at hp
      rcases List.mem_cons.mp hp with rfl | hmem
      · exact hds (k₂, d) (List.mem_cons_self _ _)
      · exact ih (fun q hq => hds q (List.mem_cons_of_mem _ hq)) p hmem

theorem boostFold_label_inv (counts : List (K × Nat))
    (data : List (K × ExtractedEntity))
    (hds : ∀ p ∈ data, norm p.2.label = p.1) :
    ∀ p ∈ boostFold counts data, norm p.2.label = p.1 := by
  induction counts generalizing data with
  | nil => exact hds
  | cons q rest ih =>
    have hstep : boostFold (q :: rest) data =
        boostFold rest (updateData q.1 (applyBoost q.2) data) := rfl
    rw [hstep]
    exact ih _ (updateData_label norm _ _ _ hds (applyBoost_label q.2))

theorem applyBoost_merged (c : Nat) (f : ExtractedEntity)
    (ps : List ProvenanceEntry) :
    applyBoost c { f with provenance := ps } =
      { f with confidence := boostConf c f.confidence, provenance := ps } := by
  unfold applyBoost boostConf
  split_ifs <;> rfl

theorem groupFirst_eq_none_iff (k : K) (l : List ExtractedEntity) :
    groupFirst norm k l = none ↔ groupCount norm k l = 0 := by
  unfold groupFirst groupCount
  rw [List.head?_eq_none_iff]
  exact List.length_eq_zero.symm

/-- Master characterization of amplify_signals: every output entity is
the first raw entity of its key group, with the provenance lists of
the whole group concatenated in input order, and the confidence
boosted from the first member's confidence by the group count. -/
theorem amplify_signals_mem (extractions : List ExtractionResult)
    (ent : ExtractedEntity) (h : ent ∈ amplify_signals norm extractions) :
    ∃ k f, groupFirst norm k (flatEntities extractions) = some f ∧
      ent = { f with
        confidence :=
          boostConf (groupCount norm k (flatEntities extractions)) f.confidence,
        provenance := groupProv norm k (flatEntities extractions) } := by
  unfold amplify_signals at h
  rw [collectEntities_eq_flat] at h
  set flat := flatEntities extractions with hflat
  set res := flat.foldl (collectStep norm) ([], []) with hres
  obtain ⟨⟨k, ent₂⟩, hmem, hsnd⟩ := List.mem_map.mp h
  simp only at hsnd
  subst hsnd
  obtain ⟨hkeys, hnd⟩ := collect_keys norm flat ([], []) rfl List.nodup_nil
  have hndB : ((boostFold res.1 res.2).map Prod.fst).Nodup := by
    rw [keys_boostFold, ← hkeys]
    exact hnd
  have hlook : lookupA k (boostFold res.1 res.2) = some ent₂ :=
    lookupA_of_mem _ _ _ hndB hmem
  rw [lookupA_boostFold _ _ _ hnd] at hlook
  have hcounts : lookupA k res.1 =
      if groupCount norm k flat = 0 then none
      else some (groupCount norm k flat) := by
    rw [hres, counts_foldl]
    simp [lookupA]
  have hdata : lookupA k res.2 =
      (groupFirst norm k flat).map
        (fun f => { f with provenance := groupProv norm k flat }) := by
    rw [hres, data_foldl]
    simp [lookupA]
  by_cases hc : groupCount norm k flat = 0
  · rw [hcounts] at hlook
    simp only [hc, if_true] at hlook
    rw [hdata, (groupFirst_eq_none_iff norm k flat).mpr hc] at hlook
    simp at hlook
  · rw [hcounts] at hlook
    simp only [hc, if_false] at hlook
    cases hf : groupFirst norm k flat with
    | none => exact absurd ((groupFirst_eq_none_iff norm k flat).mp hf) hc
    | some f =>
      rw [hdata, hf] at hlook
      simp only [Option.map_some', Option.some.injEq] at hlook
      refine ⟨k, f, hf, ?_⟩
      rw [← hlook, applyBoost_merged]

/-- The normalized keys of the amplify_signals output: they are
pairwise distinct, and a key appears exactly when its group is
non-empty in the input. -/
theorem amplify_signals_keys (extractions : List ExtractionResult) :
    ((amplify_signals norm extractions).map (fun e => norm e.label)).Nodup ∧
      ∀ k, (k ∈ (amplify_signals norm extractions).map (fun e => norm e.label) ↔
        0 < groupCount norm k (flatEntities extractions)) := by
  unfold amplify_signals
  rw [collectEntities_eq_flat]
  set flat := flatEntities extractions with hflat
  set res := flat.foldl (collectStep norm) ([], []) with hres
  obtain ⟨hkeys, hnd⟩ := collect_keys norm flat ([], []) rfl List.nodup_nil
  have hlab : ∀ p ∈ boostFold res.1 res.2, norm p.2.label = p.1 := by
    apply boostFold_label_inv
    apply collect_label_inv
    intro p hp
    simp at hp
  have hmapeq : ((boostFold res.1 res.2).map (fun kd => kd.2)).map
        (fun e => norm e.label) =
      (boostFold res.1 res.2).map Prod.fst := by
    rw [List.map_map]
    exact List.map_congr_left hlab
  rw [hmapeq, keys_boostFold, ← hkeys]
  refine ⟨hnd, fun k => ?_⟩
  have hnone : lookupA k res.1 =
      if groupCount norm k flat = 0 then none
      else some (groupCount norm k flat) := by
    rw [hres, counts_foldl]
    simp [lookupA]
  constructor
  · intro hmem
    by_contra hzero
    have hc : groupCount norm k flat = 0 := by omega
    have : lookupA k res.1 = none := by rw [hnone]; simp [hc]
    exact (lookupA_eq_none_iff k res.1).mp this hmem
  · intro hpos
    have hc : ¬groupCount norm k flat = 0 := by omega
    by_contra hmem
    have : lookupA k res.1 = none := (lookupA_eq_none_iff k res.1).mpr hmem
    rw [hnone] at this
    simp [hc] at this

end BoostLemmas

/-! ## Concrete resolver inputs used by the claims -/

/-- A sample raw entity with a given confidence and provenance, all
sharing one label so they resolve into a single group. -/
def sampleEntity (c : Nat) (ps : List ProvenanceEntry) : ExtractedEntity :=
  { type := APORType.actor, label := "china chips", confidence := c,
    provenance := ps }

/-- A sample provenance entry with a distinguishing chunk id. -/
def sampleProv (n : Nat) : ProvenanceEntry :=
  { chunkId := n, quote := "q", quoteConfidence := 50 }

/-- A degenerate normalization mapping every label to one key; with it
every raw entity lands in the same group. -/
def oneKey : String → Nat := fun _ => 0

/-! ## Claims about the entity resolver -/

/-- C1 counterexample: the claim predicts confidence
min(100, max [60, 70, 55] + 15) = 85 for the merge of three same-key
entities, but amplify_signals keeps the first-seen confidence 60 as the
base and yields 75. -/
theorem C1_counterexample :
    (amplify_signals oneKey
        [⟨[sampleEntity 60 [], sampleEntity 70 [], sampleEntity 55 []]⟩]).map
        (fun e => e.confidence) = [75] ∧
      (75 : Nat) ≠ min 100 (70 + 15) := by
  constructor
  · decide
  · decide

/-- C1 (amended): every resolved confidence equals the boost formula
applied to the confidence of the group's first-seen raw entity (not the
group maximum): +15 for groups of at least 3, +8 for groups of exactly
2, unchanged for singletons, capped at 100 when boosted. In particular
merging same-key confidences [60, 70, 55] yields 75 and a singleton
with confidence 60 yields exactly 60. -/
theorem C1_amended {K : Type} [DecidableEq K] (norm : String → K)
    (extractions : List ExtractionResult) (ent : ExtractedEntity)
    (h : ent ∈ amplify_signals norm extractions) :
    (∃ k f, groupFirst norm k (flatEntities extractions) = some f ∧
        ent.confidence =
          boostConf (groupCount norm k (flatEntities extractions))
            f.confidence) ∧
      (amplify_signals oneKey
          [⟨[sampleEntity 60 [], sampleEntity 70 [], sampleEntity 55 []]⟩]).map
          (fun e => e.confidence) = [75] ∧
      (amplify_signals oneKey [⟨[sampleEntity 60 []]⟩]).map
          (fun e => e.confidence) = [60] := by
  refine ⟨?_, by decide, by decide⟩
  obtain ⟨k, f, hf, hent⟩ := amplify_signals_mem norm extractions ent h
  exact ⟨k, f, hf, by rw [hent]⟩

/-- C1 amended witness at the singleton input. -/
theorem C1_amended_witness :
    (∃ k f, groupFirst oneKey k (flatEntities [⟨[sampleEntity 60 []]⟩]) =
          some f ∧
        (sampleEntity 60 []).confidence =
          boostConf (groupCount oneKey k (flatEntities [⟨[sampleEntity 60 []]⟩]))
            f.confidence) ∧
      (amplify_signals oneKey
          [⟨[sampleEntity 60 [], sampleEntity 70 [], sampleEntity 55 []]⟩]).map
          (fun e => e.confidence) = [75] ∧
      (amplify_signals oneKey [⟨[sampleEntity 60 []]⟩]).map
          (fun e => e.confidence) = [60] :=
  C1_amended oneKey [⟨[sampleEntity 60 []]⟩] (sampleEntity 60 []) (by decide)

/-- C2: every resolved entity's provenance is the concatenation of the
provenance lists of all raw entities merged into it, so its length is
the sum of the contributors' provenance lengths; in particular
resolving 2 raw entities with one provenance quote each yields an
entity with exactly 2 provenance entries. -/
theorem C2_provenance_union {K : Type} [DecidableEq K] (norm : String → K)
    (extractions : List ExtractionResult) (ent : ExtractedEntity)
    (h : ent ∈ amplify_signals norm extractions) :
    (∃ k, groupFirst norm k (flatEntities extractions) ≠ none ∧
        ent.provenance = groupProv norm k (flatEntities extractions) ∧
        ent.provenance.length =
          (((flatEntities extractions).filter
              (fun e => norm e.label = k)).map
            (fun e => e.provenance.length)).sum) ∧
      (amplify_signals oneKey
          [⟨[sampleEntity 60 [sampleProv 1], sampleEntity 70 [sampleProv 2]]⟩]).map
          (fun e => e.provenance.length) = [2] := by
  refine ⟨?_, by decide⟩
  obtain ⟨k, f, hf, hent⟩ := amplify_signals_mem norm extractions ent h
  refine ⟨k, by rw [hf]; exact Option.some_ne_none f, by rw [hent], ?_⟩
  rw [hent]
  show (groupProv norm k (flatEntities extractions)).length = _
  unfold groupProv
  rw [List.length_flatMap]
  rfl

/-- C2 witness at the two-entity input with one provenance quote each. -/
theorem C2_provenance_union_witness :
    (∃ k, groupFirst oneKey k
          (flatEntities
            [⟨[sampleEntity 60 [sampleProv 1], sampleEntity 70 [sampleProv 2]]⟩]) ≠
          none ∧
        { sampleEntity 60 [sampleProv 1] with
            confidence := 68,
            provenance := [sampleProv 1, sampleProv 2] }.provenance =
          groupProv oneKey k
            (flatEntities
              [⟨[sampleEntity 60 [sampleProv 1], sampleEntity 70 [sampleProv 2]]⟩]) ∧
        { sampleEntity 60 [sampleProv 1] with
            confidence := 68,
            provenance := [sampleProv 1, sampleProv 2] }.provenance.length =
          (((flatEntities
                [⟨[sampleEntity 60 [sampleProv 1], sampleEntity 70 [sampleProv 2]]⟩]).filter
              (fun e => oneKey e.label = k)).map
            (fun e => e.provenance.length)).sum) ∧
      (amplify_signals oneKey
          [⟨[sampleEntity 60 [sampleProv 1], sampleEntity 70 [sampleProv 2]]⟩]).map
          (fun e => e.provenance.length) = [2] :=
  C2_provenance_union oneKey
    [⟨[sampleEntity 60 [sampleProv 1], sampleEntity 70 [sampleProv 2]]⟩]
    { sampleEntity 60 [sampleProv 1] with
        confidence := 68, provenance := [sampleProv 1, sampleProv 2] }
    (by decide)

/-- C3 counterexample: the two-element inputs [60, 70] and [70, 60] are
permutations of each other, yet amplify_signals resolves them to
confidences 68 and 78 respectively, because the base confidence is the
first-seen one. -/
theorem C3_counterexample :
    [sampleEntity 60 [], sampleEntity 70 []].Perm
        [sampleEntity 70 [], sampleEntity 60 []] ∧
      (amplify_signals oneKey [⟨[sampleEntity 60 [], sampleEntity 70 []]⟩]).map
          (fun e => e.confidence) = [68] ∧
      (amplify_signals oneKey [⟨[sampleEntity 70 [], sampleEntity 60 []]⟩]).map
          (fun e => e.confidence) = [78] ∧
      ([68] : List Nat) ≠ [78] := by
  refine ⟨(List.Perm.swap _ _ _).symm, by decide, by decide, by decide⟩

/-- C3 (amended): for inputs that are permutations of each other, the
resolver produces the same set of normalized keys, and each group has
the same size and hence the same corroboration boost; the resolved
confidences themselves may differ, because the base confidence is taken
from the first-seen group member. -/
theorem C3_amended {K : Type} [DecidableEq K] (norm : String → K)
    (exts₁ exts₂ : List ExtractionResult)
    (hperm : (flatEntities exts₁).Perm (flatEntities exts₂)) :
    ((amplify_signals norm exts₁).map (fun e => norm e.label)).Perm
        ((amplify_signals norm exts₂).map (fun e => norm e.label)) ∧
      ∀ k, groupCount norm k (flatEntities exts₁) =
          groupCount norm k (flatEntities exts₂) ∧
        boostConf (groupCount norm k (flatEntities exts₁)) =
          boostConf (groupCount norm k (flatEntities exts₂)) := by
  have hcount : ∀ k, groupCount norm k (flatEntities exts₁) =
      groupCount norm k (flatEntities exts₂) := by
    intro k
    exact (hperm.filter _).length_eq
  obtain ⟨hnd₁, hmem₁⟩ := amplify_signals_keys norm exts₁
  obtain ⟨hnd₂, hmem₂⟩ := amplify_signals_keys norm exts₂
  refine ⟨?_, fun k => ⟨hcount k, by rw [hcount k]⟩⟩
  rw [List.perm_ext_iff_of_nodup hnd₁ hnd₂]
  intro k
  rw [hmem₁ k, hmem₂ k, hcount k]

/-- C3 amended witness at the concrete two-element permutation. -/
theorem C3_amended_witness :
    ((amplify_signals oneKey [⟨[sampleEntity 60 [], sampleEntity 70 []]⟩]).map
          (fun e => oneKey e.label)).Perm
        ((amplify_signals oneKey [⟨[sampleEntity 70 [], sampleEntity 60 []]⟩]).map
          (fun e => oneKey e.label)) ∧
      ∀ k, groupCount oneKey k
            (flatEntities [⟨[sampleEntity 60 [], sampleEntity 70 []]⟩]) =
          groupCount oneKey k
            (flatEntities [⟨[sampleEntity 70 [], sampleEntity 60 []]⟩]) ∧
        boostConf (groupCount oneKey k
            (flatEntities [⟨[sampleEntity 60 [], sampleEntity 70 []]⟩])) =
          boostConf (groupCount oneKey k
            (flatEntities [⟨[sampleEntity 70 [], sampleEntity 60 []]⟩])) :=
  C3_amended oneKey [⟨[sampleEntity 60 [], sampleEntity 70 []]⟩]
    [⟨[sampleEntity 70 [], sampleEntity 60 []]⟩] (by decide)

/-- C4 counterexample: merging same-key confidences [60, 90] yields 68,
strictly below the group maximum 90, refuting the claim that the
resolved confidence is at least the group maximum. -/
theorem C4_counterexample :
    (amplify_signals oneKey [⟨[sampleEntity 60 [], sampleEntity 90 []]⟩]).map
        (fun e => e.confidence) = [68] ∧
      (sampleEntity 90 []).confidence = 90 ∧ (68 : Nat) < 90 := by
  refine ⟨by decide, by decide, by decide⟩

/-- C4 (amended): when every raw confidence is at most 100, each
resolved entity's confidence is at least the confidence of the group's
first-seen raw entity (not the maximum) and at most 100. -/
theorem C4_amended {K : Type} [DecidableEq K] (norm : String → K)
    (extractions : List ExtractionResult) (ent : ExtractedEntity)
    (h : ent ∈ amplify_signals norm extractions)
    (hle : ∀ e ∈ flatEntities extractions, e.confidence ≤ 100) :
    (∃ k f, groupFirst norm k (flatEntities extractions) = some f ∧
        f.confidence ≤ ent.confidence) ∧
      ent.confidence ≤ 100 := by
  obtain ⟨k, f, hf, hent⟩ := amplify_signals_mem norm extractions ent h
  have hfmem : f ∈ flatEntities extractions := by
    apply List.mem_of_mem_filter (p := fun e => decide (norm e.label = k))
    exact List.mem_of_mem_head? (by rw [← groupFirst, hf]; simp)
  have hfle : f.confidence ≤ 100 := hle f hfmem
  have hconf : ent.confidence =
      boostConf (groupCount norm k (flatEntities extractions)) f.confidence := by
    rw [hent]
  constructor
  · refine ⟨k, f, hf, ?_⟩
    rw [hconf]
    unfold boostConf
    split_ifs <;> omega
  · rw [hconf]
    unfold boostConf
    split_ifs <;> omega

/-- C4 amended witness at the concrete [60, 90] input. -/
theorem C4_amended_witness :
    ((∃ k f, groupFirst oneKey k
            (flatEntities [⟨[sampleEntity 60 [], sampleEntity 90 []]⟩]) =
          some f ∧
        f.confidence ≤
          { sampleEntity 60 [] with confidence := 68 }.confidence) ∧
      { sampleEntity 60 [] with confidence := 68 }.confidence ≤ 100) :=
  C4_amended oneKey [⟨[sampleEntity 60 [], sampleEntity 90 []]⟩]
    { sampleEntity 60 [] with confidence := 68 } (by decide) (by decide)

/-! ## RetryPolicy (C5) -/

/-- The transient provider errors caught by RetryPolicy.execute. -/
inductive CallError
  | rateLimit
  | timeout
  | invalidResponse (msg : String)
deriving DecidableEq, Repr

/-- The last_error description stored for each caught error: the code
writes "Rate limited" for RateLimitError, "Timeout" for TimeoutError,
and str(e) for InvalidResponseError. -/
def errDesc : CallError → String
  | CallError.rateLimit => "Rate limited"
  | CallError.timeout => "Timeout"
  | CallError.invalidResponse msg => msg

/-- The retry loop body of RetryPolicy.execute. The wrapped call is a
function of the attempt index (the index abstracts the kwargs
adjustments made between attempts: shrunken timeout, bumped
temperature). The error payload is the last_error value carried into
ExhaustedRetriesError, still None when no attempt ran. -/
def executeGo {α : Type} (f : Nat → Except CallError α) :
    Nat → Nat → Option String → Except (Option String) α
  | 0, _, last => Except.error last
  | n + 1, i, _ =>
    match f i with
    | Except.ok a => Except.ok a
    | Except.error e => executeGo f n (i + 1) (some (errDesc e))

/-- RetryPolicy.execute: run up to maxRetries attempts starting at
attempt 0 with last_error = None; raise ExhaustedRetriesError with the
last error description when every attempt failed. -/
def executeRetry {α : Type} (maxRetries : Nat) (f : Nat → Except CallError α) :
    Except (Option String) α :=
  executeGo f maxRetries 0 none

/-- A call failing every attempt with InvalidResponseError. -/
def retryAllFail : Nat → Except CallError Nat :=
  fun _ => Except.error (CallError.invalidResponse "bad json")

/-- A call that is rate limited on attempt 0 and succeeds on attempt 1. -/
def retrySecondOk : Nat → Except CallError Nat :=
  fun i => if i = 1 then Except.ok 7 else Except.error CallError.rateLimit

/-- C5: with the default max_retries = 3, if every attempt fails with
one of the three caught errors, execute raises ExhaustedRetriesError
carrying the description of the last (third) error; and if some
attempt succeeds after only caught failures, its result is returned. -/
theorem C5_retry_policy {α : Type} (f : Nat → Except CallError α) :
    ((∀ i, i < 3 → ∃ e, f i = Except.error e) →
        ∃ e, f 2 = Except.error e ∧
          executeRetry 3 f = Except.error (some (errDesc e))) ∧
      ∀ j a, j < 3 → f j = Except.ok a →
        (∀ i, i < j → ∃ e, f i = Except.error e) →
        executeRetry 3 f = Except.ok a := by
  constructor
  · intro hall
    obtain ⟨e₀, he₀⟩ := hall 0 (by omega)
    obtain ⟨e₁, he₁⟩ := hall 1 (by omega)
    obtain ⟨e₂, he₂⟩ := hall 2 (by omega)
    exact ⟨e₂, he₂, by simp [executeRetry, executeGo, he₀, he₁, he₂]⟩
  · intro j a hj hok hbefore
    interval_cases j
    · simp [executeRetry, executeGo, hok]
    · obtain ⟨e₀, he₀⟩ := hbefore 0 (by omega)
      simp [executeRetry, executeGo, he₀, hok]
    · obtain ⟨e₀, he₀⟩ := hbefore 0 (by omega)
      obtain ⟨e₁, he₁⟩ := hbefore 1 (by omega)
      simp [executeRetry, executeGo, he₀, he₁, hok]

/-- C5 witness: three InvalidResponseError failures raise
ExhaustedRetriesError("bad json"); a success on attempt 1 after a rate
limit returns the call's result 7. -/
theorem C5_retry_policy_witness :
    (∃ e, retryAllFail 2 = Except.error e ∧
        executeRetry 3 retryAllFail = Except.error (some (errDesc e))) ∧
      executeRetry 3 retrySecondOk = Except.ok 7 :=
  ⟨(C5_retry_policy retryAllFail).1
      (fun _ _ => ⟨CallError.invalidResponse "bad json", rfl⟩),
    (C5_retry_policy retrySecondOk).2 1 7 (by omega) rfl
      (fun i hi => ⟨CallError.rateLimit, by
        have : i = 0 := by omega
        subst this
        rfl⟩)⟩

/-! ## Retrieval aggregator (C6) -/

/-- One aggregated retrieval result per distinct chunk
(RetrievedChunkResult): the chunk identity, the number of distinct
query variants that retrieved it, and the best (minimum) distance
observed across variants. Distances are modelled as rationals. -/
structure RetrievedChunkResult where
  chunkId : Nat
  hitCount : Nat
  bestDistance : ℚ
deriving DecidableEq, Repr

/-- Whether one variant's hit list retrieved the given chunk. -/
def variantHits (v : List (Nat × ℚ)) (cid : Nat) : Bool :=
  v.any (fun h => h.1 = cid)

/-- Number of distinct variants that retrieved the chunk. -/
def hitCountOf (variants : List (List (Nat × ℚ))) (cid : Nat) : Nat :=
  (variants.filter (fun v => variantHits v cid)).length

/-- All distances at which any variant retrieved the chunk. -/
def distancesOf (variants : List (List (Nat × ℚ))) (cid : Nat) : List ℚ :=
  (variants.flatMap (fun v => v.filter (fun h => h.1 = cid))).map
    (fun h => h.2)

/-- Minimum distance across all variants that hit the chunk (0 for a
chunk no variant retrieved, which never reaches the output). -/
def bestDistanceOf (variants : List (List (Nat × ℚ))) (cid : Nat) : ℚ :=
  match distancesOf variants cid with
  | [] => 0
  | d :: ds => ds.foldl min d

/-- The distinct chunk identities hit by any variant. -/
def chunkIdsOf (variants : List (List (Nat × ℚ))) : List Nat :=
  (variants.flatMap (fun v => v.map (fun h => h.1))).dedup

/-- The ranking key order of the aggregator:
(hit_count DESC, best_distance ASC). -/
def rankLE (a b : RetrievedChunkResult) : Prop :=
  b.hitCount < a.hitCount ∨
    (a.hitCount = b.hitCount ∧ a.bestDistance ≤ b.bestDistance)

instance : DecidableRel rankLE := fun a b => by
  unfold rankLE
  infer_instance

instance : IsTotal RetrievedChunkResult rankLE := by
  constructor
  intro a b
  rcases Nat.lt_trichotomy a.hitCount b.hitCount with h | h | h
  · exact Or.inr (Or.inl h)
  · rcases le_total a.bestDistance b.bestDistance with h₂ | h₂
    · exact Or.inl (Or.inr ⟨h, h₂⟩)
    · exact Or.inr (Or.inr ⟨h.symm, h₂⟩)
  · exact Or.inl (Or.inl h)

instance : IsTrans RetrievedChunkResult rankLE := by
  constructor
  intro a b c hab hbc
  rcases hab with hab | ⟨hab₁, hab₂⟩
  · rcases hbc with hbc | ⟨hbc₁, hbc₂⟩
    · exact Or.inl (by omega)
    · exact Or.inl (by omega)
  · rcases hbc with hbc | ⟨hbc₁, hbc₂⟩
    · exact Or.inl (by omega)
    · exact Or.inr ⟨by omega, le_trans hab₂ hbc₂⟩

/-- Modelled from the spec: the Retrieval Aggregator implementation
(the backend retrieval service) is not among the repository sources -
only its pipeline diagram appears in the architecture document. This
follows spec section 4.5: union all per-variant hit lists keyed by
chunk identity, compute hit_count and best_distance per distinct
chunk, rank by (hit_count DESC, best_distance ASC), truncate to
top_k. -/
def retrieve (variants : List (List (Nat × ℚ))) (topK : Nat) :
    List RetrievedChunkResult :=
  ((List.insertionSort rankLE
      ((chunkIdsOf variants).map
        (fun cid =>
          { chunkId := cid, hitCount := hitCountOf variants cid,
            bestDistance := bestDistanceOf variants cid }))).take topK)

/-- The concrete scenario of the claim: chunk 0 is retrieved by all
three variants at distances 0.3, 0.4, 0.5; chunk 1 by one variant at
distance 0.1. -/
def exampleVariants : List (List (Nat × ℚ)) :=
  [[(0, 3 / 10)], [(0, 2 / 5)], [(0, 1 / 2), (1, 1 / 10)]]

/-- C6: the aggregator output is sorted by (hit_count DESC,
best_distance ASC); consequently any chunk retrieved by more distinct
variants appears strictly before any chunk retrieved by fewer,
regardless of raw distances; in particular, a chunk hit by three
variants at distances 0.3, 0.4, 0.5 ranks above a chunk hit by one
variant at distance 0.1. -/
theorem C6_signal_amplification_ranking
    (variants : List (List (Nat × ℚ))) (topK : Nat)
    (i j : Fin (retrieve variants topK).length) (hij : i < j) :
    rankLE ((retrieve variants topK).get i) ((retrieve variants topK).get j) ∧
      (∀ a b : Fin (retrieve variants topK).length,
        ((retrieve variants topK).get b).hitCount <
            ((retrieve variants topK).get a).hitCount →
          a < b) ∧
      (retrieve exampleVariants 10).map (fun r => r.chunkId) = [0, 1] := by
  have hsorted : List.Sorted rankLE (retrieve variants topK) := by
    unfold retrieve
    exact List.Pairwise.sublist (List.take_sublist _ _)
      (List.sorted_insertionSort rankLE _)
  refine ⟨hsorted.rel_get_of_lt hij, ?_, by decide⟩
  intro a b hcount
  rcases Nat.lt_trichotomy a.val b.val with h | h | h
  · exact Fin.mk_lt_mk.mpr h
  · exact absurd (Fin.ext h ▸ hcount) (lt_irrefl _)
  · have hrel := hsorted.rel_get_of_lt (show b < a from h)
    rcases hrel with hrel | ⟨hrel, _⟩
    · omega
    · omega

/-- C6 witness at the concrete three-variant scenario. -/
theorem C6_signal_amplification_ranking_witness :
    rankLE ((retrieve exampleVariants 10).get ⟨0, by decide⟩)
        ((retrieve exampleVariants 10).get ⟨1, by decide⟩) ∧
      (∀ a b : Fin (retrieve exampleVariants 10).length,
        ((retrieve exampleVariants 10).get b).hitCount <
            ((retrieve exampleVariants 10).get a).hitCount →
          a < b) ∧
      (retrieve exampleVariants 10).map (fun r => r.chunkId) = [0, 1] :=
  C6_signal_amplification_ranking exampleVariants 10 ⟨0, by decide⟩ ⟨1, by decide⟩
    (by decide)

/-! ## Chunker (C7) -/

/-- Modelled from the spec: the Chunker implementation (the backend
ingestion service) is not among the repository sources. This follows
spec section 4.2: segment i starts at offset i * (target_size -
overlap) with length target_size clamped to the text length; the last
segment may be shorter and a zero-length final segment is dropped.
Segments are (offset, length) pairs over a text of n characters. -/
def chunk (n target overlap : Nat) : List (Nat × Nat) :=
  (List.range ((n + (target - overlap) - 1) / (target - overlap))).map
    (fun i => (i * (target - overlap), min target (n - i * (target - overlap))))

theorem lt_of_lt_ceilDiv (i n s : Nat) (hs : 0 < s)
    (h : i < (n + s - 1) / s) : i * s < n := by
  have h₁ : (i + 1) * s ≤ ((n + s - 1) / s) * s :=
    Nat.mul_le_mul_right s h
  have h₂ : ((n + s - 1) / s) * s ≤ n + s - 1 := Nat.div_mul_le_self _ _
  have h₃ : (i + 1) * s = i * s + s := by ring
  omega

/-- C7: for overlap < target_size, segment i of chunk starts at
i * (target_size - overlap) and has length target_size clamped to the
text length; no zero-length segment is produced; and a 3000-character
text with target size 2000 and overlap 200 yields exactly the two
segments [0, 2000) and [1800, 3000). -/
theorem C7_chunker (n target overlap : Nat) (hov : overlap < target) :
    (∀ i (hi : i < (chunk n target overlap).length),
        (chunk n target overlap).get ⟨i, hi⟩ =
          (i * (target - overlap), min target (n - i * (target - overlap)))) ∧
      (∀ seg ∈ chunk n target overlap, 0 < seg.2) ∧
      chunk 3000 2000 200 = [(0, 2000), (1800, 1200)] := by
  refine ⟨?_, ?_, by decide⟩
  · intro i hi
    simp [chunk]
  · intro seg hseg
    obtain ⟨i, hi, rfl⟩ := List.mem_map.mp hseg
    rw [List.mem_range] at hi
    have hs : 0 < target - overlap := by omega
    have hlt : i * (target - overlap) < n := lt_of_lt_ceilDiv i n _ hs hi
    simp only
    omega

/-- C7 witness at the 3000-character, size-2000, overlap-200 input. -/
theorem C7_chunker_witness :
    (∀ i (hi : i < (chunk 3000 2000 200).length),
        (chunk 3000 2000 200).get ⟨i, hi⟩ =
          (i * (2000 - 200), min 2000 (3000 - i * (2000 - 200)))) ∧
      (∀ seg ∈ chunk 3000 2000 200, 0 < seg.2) ∧
      chunk 3000 2000 200 = [(0, 2000), (1800, 1200)] :=
  C7_chunker 3000 2000 200 (by decide)

/-! ## Gemini analysis service (C8, C9) -/

/-- A graph node of the frontend data model (PolicyNode in types.ts);
TypeScript numbers are modelled as rationals. -/
structure PolicyNode where
  id : String
  label : String
  type : APORType
  confidence : ℚ
  impactScore : ℚ
  cluster : ℚ
  summary : String
  firstSeen : String
  lastSeen : String
  sources : List String
deriving DecidableEq, Repr

/-- A graph edge of the frontend data model (PolicyLink in types.ts). -/
structure PolicyLink where
  source : String
  target : String
  strength : ℚ
  label : Option String
deriving DecidableEq, Repr

/-- The SimulationData record returned by analyzePolicyScenario. -/
structure SimulationData where
  nodes : List PolicyNode
  links : List PolicyLink
  summary : String
  projectedGDP : List ℚ
  socialStability : List ℚ
  timelineLabels : List String
deriving DecidableEq, Repr

/-- The raw JSON.parse result before the Validate-and-Normalize block:
a field that is missing or fails Array.isArray is none; a summary that
is missing is none. -/
structure ParsedSim where
  nodes : Option (List PolicyNode)
  links : Option (List PolicyLink)
  summary : Option String
  projectedGDP : Option (List ℚ)
  socialStability : Option (List ℚ)
  timelineLabels : Option (List String)

/-- The default timeline used when the provider omits the labels. -/
def defaultLabels : List String := ["T+1", "T+2", "T+3", "T+4", "T+5"]

/-- The while loop padding a chart array with the value 50 up to the
expected length. -/
def padTo (n : Nat) (l : List ℚ) : List ℚ :=
  l ++ List.replicate (n - l.length) 50

/-- The Validate-and-Normalize block of analyzePolicyScenario: arrays
are defaulted, the timeline defaults to 5 labels, and both chart
arrays are padded with 50 then truncated to the timeline length. -/
def normalizeSim (p : ParsedSim) : SimulationData :=
  let labels :=
    match p.timelineLabels with
    | some l => if 0 < l.length then l else defaultLabels
    | none => defaultLabels
  let expected := labels.length
  { nodes := p.nodes.getD []
    links := p.links.getD []
    summary :=
      match p.summary with
      | some s => if s = "" then "Analysis completed successfully." else s
      | none => "Analysis completed successfully."
    timelineLabels := labels
    projectedGDP := (padTo expected (p.projectedGDP.getD [])).take expected
    socialStability := (padTo expected (p.socialStability.getD [])).take expected }

/-- The fixed fallback SimulationData returned by the catch block,
parameterized by the dynamically computed current date string. -/
def fallbackSim (currentIso : String) : SimulationData :=
  { nodes := [
      { id := "1", label := "Analysis Failure", type := APORType.risk,
        impactScore := 100, cluster := 1,
        summary := "System unable to connect to main heuristic core.",
        confidence := 0, firstSeen := currentIso, lastSeen := currentIso,
        sources := ["System Logs"] },
      { id := "2", label := "Network Error", type := APORType.policy,
        impactScore := 50, cluster := 1,
        summary := "Check internet connection or API quota limits.",
        confidence := 0, firstSeen := currentIso, lastSeen := currentIso,
        sources := ["Connectivity Monitor"] }],
    links := [{ source := "1", target := "2", strength := 5,
                label := some "Error" }],
    summary := "System unable to establish connection to neural core. Please verify API configuration or quota.",
    projectedGDP := [40, 30, 20, 10, 0],
    socialStability := [20, 20, 20, 20, 20],
    timelineLabels := ["ERR", "ERR", "ERR", "ERR", "ERR"] }

/-- The observable outcome of the provider call inside the try block:
the call may throw, return empty text, return unparseable text, or
return a parsed object. -/
inductive ProviderOutcome
  | providerError
  | emptyText
  | parseFailure
  | parsed (p : ParsedSim)

/-- analyzePolicyScenario: an empty configured API key throws
"API Key not found" before the try block; otherwise every failure path
of the try block is caught and the fallback data returned, and a
parsed response is normalized. -/
def analyzePolicyScenario (apiKey currentIso : String)
    (resp : ProviderOutcome) : Except String SimulationData :=
  if apiKey = "" then Except.error "API Key not found"
  else
    Except.ok
      (match resp with
      | ProviderOutcome.parsed p => normalizeSim p
      | _ => fallbackSim currentIso)

theorem take_padTo (n : Nat) (l : List ℚ) :
    (padTo n l).take n = l.take n ++ List.replicate (n - l.length) 50 := by
  unfold padTo
  rw [List.take_append_eq_append_take]
  congr 1
  · rw [List.take_replicate]
    congr 1
    omega

theorem length_take_padTo (n : Nat) (l : List ℚ) :
    ((padTo n l).take n).length = n := by
  rw [List.length_take, padTo, List.length_append, List.length_replicate]
  omega

/-- C8: every SimulationData produced by analyzePolicyScenario - the
normalized success value and the error fallback alike - has projected
GDP and social stability arrays of exactly the timeline length, and a
non-empty timeline (5 default labels when the provider omits them);
short arrays are padded with 50, long arrays are truncated. -/
theorem C8_chart_invariant (apiKey currentIso : String)
    (resp : ProviderOutcome) (d : SimulationData)
    (h : analyzePolicyScenario apiKey currentIso resp = Except.ok d) :
    (d.projectedGDP.length = d.timelineLabels.length ∧
        d.socialStability.length = d.timelineLabels.length ∧
        0 < d.timelineLabels.length) ∧
      (∀ p : ParsedSim, p.timelineLabels = none →
        (normalizeSim p).timelineLabels = defaultLabels ∧
          defaultLabels.length = 5) ∧
      ∀ p : ParsedSim,
        (normalizeSim p).projectedGDP =
            (p.projectedGDP.getD []).take (normalizeSim p).timelineLabels.length ++
              List.replicate
                ((normalizeSim p).timelineLabels.length -
                  (p.projectedGDP.getD []).length) 50 ∧
          (normalizeSim p).socialStability =
            (p.socialStability.getD []).take
                (normalizeSim p).timelineLabels.length ++
              List.replicate
                ((normalizeSim p).timelineLabels.length -
                  (p.socialStability.getD []).length) 50 := by
  refine ⟨?_, ?_, ?_⟩
  · unfold analyzePolicyScenario at h
    by_cases hkey : apiKey = ""
    · simp [hkey] at h
    · simp only [hkey, if_false, Except.ok.injEq] at h
      subst h
      cases resp with
      | parsed p =>
        simp only [normalizeSim]
        refine ⟨length_take_padTo _ _, length_take_padTo _ _, ?_⟩
        cases hl : p.timelineLabels with
        | none => simp [defaultLabels]
        | some l =>
          by_cases h0 : 0 < l.length <;> simp [h0, defaultLabels]
      | providerError => simp [fallbackSim]
      | emptyText => simp [fallbackSim]
      | parseFailure => simp [fallbackSim]
  · intro p hp
    simp [normalizeSim, hp, defaultLabels]
  · intro p
    exact ⟨take_padTo _ _, take_padTo _ _⟩

/-- A sample parsed response with a short GDP array and a long
stability array against a 3-label timeline. -/
def sampleParsed : ParsedSim :=
  { nodes := none, links := none, summary := none,
    projectedGDP := some [70, 60],
    socialStability := some [10, 20, 30, 40, 50],
    timelineLabels := some ["2025", "2026", "2027"] }

/-- C8 witness at a parsed response with mismatched array lengths. -/
theorem C8_chart_invariant_witness :
    ((normalizeSim sampleParsed).projectedGDP.length =
          (normalizeSim sampleParsed).timelineLabels.length ∧
        (normalizeSim sampleParsed).socialStability.length =
          (normalizeSim sampleParsed).timelineLabels.length ∧
        0 < (normalizeSim sampleParsed).timelineLabels.length) ∧
      (∀ p : ParsedSim, p.timelineLabels = none →
        (normalizeSim p).timelineLabels = defaultLabels ∧
          defaultLabels.length = 5) ∧
      ∀ p : ParsedSim,
        (normalizeSim p).projectedGDP =
            (p.projectedGDP.getD []).take (normalizeSim p).timelineLabels.length ++
              List.replicate
                ((normalizeSim p).timelineLabels.length -
                  (p.projectedGDP.getD []).length) 50 ∧
          (normalizeSim p).socialStability =
            (p.socialStability.getD []).take
                (normalizeSim p).timelineLabels.length ++
              List.replicate
                ((normalizeSim p).timelineLabels.length -
                  (p.socialStability.getD []).length) 50 :=
  C8_chart_invariant "key" "2026-10-11" (ProviderOutcome.parsed sampleParsed)
    (normalizeSim sampleParsed) (by rfl)

/-- C9: with a non-empty API key analyzePolicyScenario never rejects:
every provider error, empty response and parse failure resolves to the
fixed fallback with exactly the two nodes Analysis Failure (risk) and
Network Error (policy), both at confidence 0, and one link between
them; it throws "API Key not found" exactly when the key is empty. -/
theorem C9_error_fallback (apiKey currentIso : String)
    (resp : ProviderOutcome) (hkey : apiKey ≠ "") :
    (∃ d, analyzePolicyScenario apiKey currentIso resp = Except.ok d) ∧
      ((resp = ProviderOutcome.providerError ∨ resp = ProviderOutcome.emptyText ∨
          resp = ProviderOutcome.parseFailure) →
        analyzePolicyScenario apiKey currentIso resp =
          Except.ok (fallbackSim currentIso)) ∧
      ((fallbackSim currentIso).nodes.map
          (fun nd => (nd.label, nd.type, nd.confidence)) =
        [("Analysis Failure", APORType.risk, 0),
          ("Network Error", APORType.policy, 0)]) ∧
      (fallbackSim currentIso).links =
        [{ source := "1", target := "2", strength := 5,
            label := some "Error" }] ∧
      ∀ r : ProviderOutcome,
        analyzePolicyScenario "" currentIso r =
          Except.error "API Key not found" := by
  refine ⟨?_, ?_, by simp [fallbackSim], by simp [fallbackSim],
    fun r => by simp [analyzePolicyScenario]⟩
  · cases resp with
    | parsed p => exact ⟨normalizeSim p, by simp [analyzePolicyScenario, hkey]⟩
    | providerError =>
      exact ⟨fallbackSim currentIso, by simp [analyzePolicyScenario, hkey]⟩
    | emptyText =>
      exact ⟨fallbackSim currentIso, by simp [analyzePolicyScenario, hkey]⟩
    | parseFailure =>
      exact ⟨fallbackSim currentIso, by simp [analyzePolicyScenario, hkey]⟩
  · rintro (rfl | rfl | rfl) <;> simp [analyzePolicyScenario, hkey]

/-- C9 witness at a provider error with a non-empty key. -/
theorem C9_error_fallback_witness :
    (∃ d, analyzePolicyScenario "key" "2026-10-11"
          ProviderOutcome.providerError = Except.ok d) ∧
      ((ProviderOutcome.providerError = ProviderOutcome.providerError ∨
          ProviderOutcome.providerError = ProviderOutcome.emptyText ∨
          ProviderOutcome.providerError = ProviderOutcome.parseFailure) →
        analyzePolicyScenario "key" "2026-10-11"
            ProviderOutcome.providerError =
          Except.ok (fallbackSim "2026-10-11")) ∧
      ((fallbackSim "2026-10-11").nodes.map
          (fun nd => (nd.label, nd.type, nd.confidence)) =
        [("Analysis Failure", APORType.risk, 0),
          ("Network Error", APORType.policy, 0)]) ∧
      (fallbackSim "2026-10-11").links =
        [{ source := "1", target := "2", strength := 5,
            label := some "Error" }] ∧
      ∀ r : ProviderOutcome,
        analyzePolicyScenario "" "2026-10-11" r =
          Except.error "API Key not found" :=
  C9_error_fallback "key" "2026-10-11" ProviderOutcome.providerError
    (by decide)

/-! ## Citation renderer of AnalysisSummary (C10) -/

/-- The exact mathematical integer value of a decimal digit run: the
number n that a citation marker text of the form bracket-n-bracket
denotes. -/
def natOfDigits (ds : List Char) : Nat :=
  ds.foldl (fun acc c => 10 * acc + (c.toNat - 48)) 0

/-- The integer value of an IEEE-754 binary64 number produced from a
non-negative integer: a finite integer (the results of rounding an
integer to binary64 are themselves integers) or Infinity on overflow. -/
inductive JSNum
  | finite (n : Nat)
  | infinite
deriving DecidableEq, Repr

/-- Round a natural number to 53 significant binary digits with ties
to even: the value of the IEEE-754 binary64 nearest to n, before the
overflow check. Numbers below 2^53 are exactly representable. -/
def roundTo53 (n : Nat) : Nat :=
  if n < 2 ^ 53 then n
  else
    let shift := n.log2 - 52
    let q := n / 2 ^ shift
    let r := n % 2 ^ shift
    let half := 2 ^ (shift - 1)
    if half < r ∨ (r = half ∧ q % 2 = 1) then (q + 1) * 2 ^ shift
    else q * 2 ^ shift

/-- parseInt(digits, 10): the exact integer value of the digit run
converted to a JavaScript number, i.e. rounded to the nearest IEEE-754
binary64 (ties to even), overflowing to Infinity at 2^1024. -/
def parseIntJS (ds : List Char) : JSNum :=
  let v := roundTo53 (natOfDigits ds)
  if v < 2 ^ 1024 then JSNum.finite v else JSNum.infinite

/-- One element of the parts array built by renderSummaryWithCitations;
citationNum is absent (none) on plain text parts and holds the
JavaScript number produced by parseInt on citation parts. Strings are
modelled as character lists. -/
structure SummaryPart where
  text : List Char
  isCitation : Bool
  citationNum : Option JSNum
deriving DecidableEq, Repr

/-- One attempt of the citation regex at the current position: an
opening bracket, a greedy non-empty digit run, a closing bracket;
returns the digit run and the remainder after the match. -/
def matchCitationAt : List Char → Option (List Char × List Char)
  | [] => none
  | c :: rest =>
    if c = '[' ∧ rest.takeWhile Char.isDigit ≠ [] ∧
        (rest.dropWhile Char.isDigit).head? = some ']' then
      some (rest.takeWhile Char.isDigit, (rest.dropWhile Char.isDigit).tail)
    else none

/-- The scanning loop of renderSummaryWithCitations: the regex is
tried at each position; between matches the characters accumulate into
the pending text part (acc, reversed), flushed before each citation
part and at the end of the input. The fuel argument only bounds the
recursion; text.length + 1 always suffices. -/
def renderGoF : Nat → List Char → List Char → List SummaryPart
  | 0, _, _ => []
  | _ + 1, [], acc =>
    if acc = [] then [] else [⟨acc.reverse, false, none⟩]
  | fuel + 1, c :: rest, acc =>
    match matchCitationAt (c :: rest) with
    | some (ds, rest₂) =>
      (if acc = [] then [] else [⟨acc.reverse, false, none⟩]) ++
        ⟨'[' :: (ds ++ [']']), true, some (parseIntJS ds)⟩ ::
          renderGoF fuel rest₂ []
    | none => renderGoF fuel rest (c :: acc)

/-- renderSummaryWithCitations of AnalysisSummary.tsx. -/
def renderSummaryWithCitations (text : List Char) : List SummaryPart :=
  renderGoF (text.length + 1) text []

/-- The concatenation of the text fields of a parts list. -/
def partsText (ps : List SummaryPart) : List Char :=
  ps.flatMap (fun p => p.text)

/-- Whether a string is exactly a citation marker: a bracketed
non-empty digit run. -/
def isCitationText (t : List Char) : Prop :=
  ∃ ds, t = '[' :: (ds ++ [']']) ∧ ds ≠ [] ∧ ds.all Char.isDigit = true

theorem takeWhile_digits (ds t : List Char)
    (hall : ds.all Char.isDigit = true) :
    (ds ++ ']' :: t).takeWhile Char.isDigit = ds := by
  induction ds with
  | nil => simp [List.takeWhile_cons]
  | cons d rest ih =>
    simp only [List.all_cons, Bool.and_eq_true] at hall
    simp [List.takeWhile_cons, hall.1, ih hall.2]

theorem dropWhile_digits (ds t : List Char)
    (hall : ds.all Char.isDigit = true) :
    (ds ++ ']' :: t).dropWhile Char.isDigit = ']' :: t := by
  induction ds with
  | nil => simp [List.dropWhile_cons]
  | cons d rest ih =>
    simp only [List.all_cons, Bool.and_eq_true] at hall
    simp [List.dropWhile_cons, hall.1, ih hall.2]

theorem matchCitationAt_some (s ds r : List Char)
    (h : matchCitationAt s = some (ds, r)) :
    s = '[' :: (ds ++ ']' :: r) ∧ ds ≠ [] ∧ ds.all Char.isDigit = true := by
  cases s with
  | nil => simp [matchCitationAt] at h
  | cons c rest =>
    by_cases hcond : c = '[' ∧ rest.takeWhile Char.isDigit ≠ [] ∧
        (rest.dropWhile Char.isDigit).head? = some ']'
    · rw [matchCitationAt, if_pos hcond, Option.some.injEq] at h
      obtain ⟨h₁, h₂⟩ := Prod.mk.injEq .. ▸ h
      obtain ⟨hc, hne, hhead⟩ := hcond
      subst hc
      cases hdw : rest.dropWhile Char.isDigit with
      | nil => rw [hdw] at hhead; simp at hhead
      | cons c₂ rest₃ =>
        rw [hdw] at hhead h₂
        simp only [List.head?_cons, Option.some.injEq] at hhead
        simp only [List.tail_cons] at h₂
        have hrest : rest = ds ++ ']' :: r := by
          conv_lhs => rw [← List.takeWhile_append_dropWhile Char.isDigit rest]
          rw [hdw, h₁, hhead, h₂]
        refine ⟨by rw [hrest], by rw [← h₁]; exact hne, ?_⟩
        rw [← h₁, List.all_eq_true]
        intro x hx
        exact List.mem_takeWhile_imp hx
    · rw [matchCitationAt, if_neg hcond] at h
      exact absurd h.symm (Option.some_ne_none _)

theorem matchCitationAt_of_form (ds t : List Char) (hne : ds ≠ [])
    (hall : ds.all Char.isDigit = true) :
    matchCitationAt ('[' :: (ds ++ ']' :: t)) = some (ds, t) := by
  rw [matchCitationAt,
    if_pos ⟨rfl, by rw [takeWhile_digits ds t hall]; exact hne,
      by rw [dropWhile_digits ds t hall]; rfl⟩,
    takeWhile_digits ds t hall, dropWhile_digits ds t hall, List.tail_cons]

theorem not_citation_of_nomatch (g s : List Char)
    (h : matchCitationAt (g ++ s) = none) : ¬isCitationText g := by
  rintro ⟨ds, rfl, hne, hall⟩
  rw [show ('[' :: (ds ++ [']'])) ++ s = '[' :: (ds ++ ']' :: s) by simp] at h
  rw [matchCitationAt_of_form ds s hne hall] at h
  exact Option.some_ne_none _ h

theorem matchCitationAt_shrinks (s ds r : List Char)
    (h : matchCitationAt s = some (ds, r)) : r.length < s.length := by
  obtain ⟨hs, _, _⟩ := matchCitationAt_some s ds r h
  rw [hs]
  simp
  omega

theorem renderGoF_text (fuel : Nat) :
    ∀ s acc : List Char, s.length < fuel →
      partsText (renderGoF fuel s acc) = acc.reverse ++ s := by
  induction fuel with
  | zero => intro s acc h; omega
  | succ fuel ih =>
    intro s acc hlen
    cases s with
    | nil =>
      by_cases hacc : acc = [] <;> simp [renderGoF, hacc, partsText]
    | cons c rest =>
      rcases hm : matchCitationAt (c :: rest) with _ | ⟨ds, rest₂⟩
      · have hrec := ih rest (c :: acc) (by simp at hlen ⊢; omega)
        simp only [renderGoF, hm, hrec, List.reverse_cons]
        simp
      · obtain ⟨hs, hne, hall⟩ := matchCitationAt_some _ _ _ hm
        have hlt : rest₂.length < fuel := by
          have := matchCitationAt_shrinks _ _ _ hm
          omega
        have hrec := ih rest₂ [] hlt
        simp only [renderGoF, hm, partsText, List.flatMap_append,
          List.flatMap_cons]
        show _ ++ (('[' :: (ds ++ [']'])) ++ partsText (renderGoF fuel rest₂ [])) =
          acc.reverse ++ (c :: rest)
        rw [hrec, hs]
        by_cases hacc : acc = [] <;> simp [hacc, partsText]

theorem renderGoF_parts (fuel : Nat) :
    ∀ s acc : List Char, s.length < fuel →
      (∀ u v : List Char, acc.reverse = u ++ v → v ≠ [] →
        matchCitationAt (v ++ s) = none) →
      ∀ p ∈ renderGoF fuel s acc,
        (p.isCitation = false → ¬isCitationText p.text) ∧
        (p.isCitation = true →
          ∃ ds, p.text = '[' :: (ds ++ [']']) ∧ ds ≠ [] ∧
            ds.all Char.isDigit = true ∧
            p.citationNum = some (parseIntJS ds)) := by
  induction fuel with
  | zero => intro s acc h; omega
  | succ fuel ih =>
    intro s acc hlen hacc p hp
    cases s with
    | nil =>
      by_cases hnil : acc = []
      · simp [renderGoF, hnil] at hp
      · simp only [renderGoF, if_neg hnil, List.mem_singleton] at hp
        subst hp
        refine ⟨fun _ => ?_, fun h => by simp at h⟩
        have hv : acc.reverse ≠ [] := by
          simpa using hnil
        have := hacc [] acc.reverse (by simp) hv
        rw [List.append_nil] at this
        exact not_citation_of_nomatch _ [] (by simpa using this)
    | cons c rest =>
      rcases hm : matchCitationAt (c :: rest) with _ | ⟨ds, rest₂⟩
      · have hacc₂ : ∀ u v : List Char, (c :: acc).reverse = u ++ v → v ≠ [] →
            matchCitationAt (v ++ rest) = none := by
          intro u v huv hv
          rw [List.reverse_cons] at huv
          have hvsplit := List.dropLast_append_getLast hv
          rw [← hvsplit, ← List.append_assoc] at huv
          obtain ⟨hpre, hlast⟩ := List.append_inj' huv (by simp)
          have hc : v.getLast hv = c := by
            have hcc : c = v.getLast hv := by simpa using hlast
            exact hcc.symm
          by_cases hdrop : v.dropLast = []
          · rw [← hvsplit, hdrop, hc]
            simpa using hm
          · have := hacc u v.dropLast hpre hdrop
            rw [← hvsplit, hc, List.append_assoc]
            simpa using this
        have hrec := ih rest (c :: acc) (by simp at hlen ⊢; omega) hacc₂
        simp only [renderGoF, hm] at hp
        exact hrec p hp
      · obtain ⟨hs, hne, hall⟩ := matchCitationAt_some _ _ _ hm
        have hlt : rest₂.length < fuel := by
          have := matchCitationAt_shrinks _ _ _ hm
          omega
        have hrec := ih rest₂ [] hlt
          (fun u v huv hv => absurd (List.append_eq_nil.mp huv.symm).2 hv)
        simp only [renderGoF, hm, List.mem_append, List.mem_cons] at hp
        rcases hp with hgap | hcite | hrest
        · by_cases hnil : acc = []
          · simp [hnil] at hgap
          · simp only [if_neg hnil, List.mem_singleton] at hgap
            subst hgap
            refine ⟨fun _ => ?_, fun h => by simp at h⟩
            have hv : acc.reverse ≠ [] := by simpa using hnil
            exact not_citation_of_nomatch _ (c :: rest)
              (hacc [] acc.reverse (by simp) hv)
        · subst hcite
          refine ⟨fun h => by simp at h, fun _ => ⟨ds, rfl, hne, hall, rfl⟩⟩
        · exact hrec p hrest

/-- A fuel-starved or finished scan of an empty remainder with an
empty pending gap produces no parts. -/
theorem renderGoF_nil (fuel : Nat) : renderGoF fuel [] [] = [] := by
  cases fuel <;> simp [renderGoF]

/-- Scanning a string that is exactly one citation marker yields the
single citation part carrying parseInt of its digit run. -/
theorem renderSummary_single_citation (ds : List Char) (hne : ds ≠ [])
    (hall : ds.all Char.isDigit = true) :
    renderSummaryWithCitations ('[' :: (ds ++ [']'])) =
      [⟨'[' :: (ds ++ [']']), true, some (parseIntJS ds)⟩] := by
  have hm : matchCitationAt ('[' :: (ds ++ [']'])) = some (ds, []) :=
    matchCitationAt_of_form ds [] hne hall
  unfold renderSummaryWithCitations
  simp only [renderGoF, hm, renderGoF_nil]
  simp

/-- Integers below 2^53 are exactly representable: parseInt returns
them unchanged. -/
theorem parseIntJS_small (ds : List Char) (h : natOfDigits ds < 2 ^ 53) :
    parseIntJS ds = JSNum.finite (natOfDigits ds) := by
  have hr : roundTo53 (natOfDigits ds) = natOfDigits ds := by
    unfold roundTo53
    rw [if_pos h]
  have h1024 : natOfDigits ds < 2 ^ 1024 :=
    lt_trans h (Nat.pow_lt_pow_right (by omega) (by omega))
  simp only [parseIntJS, hr]
  rw [if_pos h1024]

/-- The digit run of 10^19 + 1, a 20-digit integer that binary64
cannot represent exactly. -/
def bigDigits : List Char :=
  ['1', '0', '0', '0', '0', '0', '0', '0', '0', '0', '0', '0', '0', '0',
    '0', '0', '0', '0', '0', '1']

/-- The citation marker text for 10^19 + 1. -/
def bigCiteChars : List Char := '[' :: (bigDigits ++ [']'])

theorem roundTo53_big :
    roundTo53 10000000000000000001 = 10000000000000000000 := by
  have hlog : Nat.log2 10000000000000000001 = 63 := by
    rw [Nat.log2_eq_log_two]
    exact Nat.log_eq_of_pow_le_of_lt_pow (by norm_num) (by norm_num)
  simp only [roundTo53, hlog]
  norm_num

theorem parseIntJS_big :
    parseIntJS bigDigits = JSNum.finite 10000000000000000000 := by
  have hnod : natOfDigits bigDigits = 10000000000000000001 := by decide
  have h1024 : (10000000000000000000 : Nat) < 2 ^ 1024 := by norm_num
  simp only [parseIntJS, hnod, roundTo53_big]
  rw [if_pos h1024]

/-- C10 counterexample: on the input "[10000000000000000001]" the
rendered part is a citation for n = 10^19 + 1, but its citationNum is
the binary64 rounding 10^19, not n: parseInt loses the final digit, so
citationNum does not equal n for every decimal integer n. -/
theorem C10_counterexample :
    renderSummaryWithCitations bigCiteChars =
        [⟨bigCiteChars, true, some (JSNum.finite 10000000000000000000)⟩] ∧
      natOfDigits bigDigits = 10000000000000000001 ∧
      JSNum.finite 10000000000000000000 ≠
        JSNum.finite 10000000000000000001 := by
  refine ⟨?_, by decide, by decide⟩
  rw [show bigCiteChars = '[' :: (bigDigits ++ [']']) from rfl,
    renderSummary_single_citation bigDigits (by decide) (by decide),
    parseIntJS_big]

/-- C10 (amended): the parts of renderSummaryWithCitations concatenate
back to the input string exactly, and a part is a citation exactly
when its text is a bracketed non-empty decimal digit run denoting an
integer n; its citationNum is then the IEEE-754 binary64 value parseInt
computes from the run, which equals n exactly whenever n < 2^53. -/
theorem C10_citation_parts (t : List Char) :
    partsText (renderSummaryWithCitations t) = t ∧
      (∀ p ∈ renderSummaryWithCitations t,
        (p.isCitation = true ↔ isCitationText p.text) ∧
        (p.isCitation = true →
          ∃ ds, p.text = '[' :: (ds ++ [']']) ∧
            p.citationNum = some (parseIntJS ds))) ∧
      ∀ ds : List Char, natOfDigits ds < 2 ^ 53 →
        parseIntJS ds = JSNum.finite (natOfDigits ds) := by
  refine ⟨?_, ?_, fun ds h => parseIntJS_small ds h⟩
  · unfold renderSummaryWithCitations
    rw [renderGoF_text (t.length + 1) t [] (by omega)]
    simp
  · intro p hp
    have h := renderGoF_parts (t.length + 1) t [] (by omega)
      (fun u v huv hv => absurd (List.append_eq_nil.mp huv.symm).2 hv) p hp
    refine ⟨⟨fun htrue => ?_, fun hform => ?_⟩, fun htrue => ?_⟩
    · obtain ⟨ds, h₁, h₂, h₃, _⟩ := h.2 htrue
      exact ⟨ds, h₁, h₂, h₃⟩
    · by_contra hfalse
      rw [Bool.not_eq_true] at hfalse
      exact h.1 hfalse hform
    · obtain ⟨ds, h₁, _, _, h₄⟩ := h.2 htrue
      exact ⟨ds, h₁, h₄⟩

/-- The sample summary text "See [12]." as a character list. -/
def exChars : List Char :=
  ['S', 'e', 'e', ' ', '[', '1', '2', ']', '.']

/-- The citation part produced for "[12]": 12 < 2^53 is exactly
representable. -/
def exPart : SummaryPart := ⟨['[', '1', '2', ']'], true, some (JSNum.finite 12)⟩

set_option maxRecDepth 8192 in
/-- C10 witness: the round trip at "See [12]." and the characterization
at its citation part [12], whose citationNum is exactly 12. -/
theorem C10_citation_parts_witness :
    partsText (renderSummaryWithCitations exChars) = exChars ∧
      ((exPart.isCitation = true ↔ isCitationText exPart.text) ∧
        (exPart.isCitation = true →
          ∃ ds, exPart.text = '[' :: (ds ++ [']']) ∧
            exPart.citationNum = some (parseIntJS ds))) ∧
      parseIntJS ['1', '2'] = JSNum.finite (natOfDigits ['1', '2']) :=
  ⟨(C10_citation_parts exChars).1,
    (C10_citation_parts exChars).2.1 exPart (by decide),
    (C10_citation_parts exChars).2.2 ['1', '2'] (by decide)⟩

end Spec2Proof
